import Mathlib

/-!
Verification of the like-deduplication core of the Stock Price Checker
service (src/server.js and src/unnamed/part_000).

The persistent store is the Postgres table

  stock_likes (symbol TEXT PRIMARY KEY, likes INTEGER DEFAULT 0, ips TEXT[] DEFAULT '{}')

modelled as an association list from symbols to records.  Each
`pool.query` call of the source is one atomic step on this table:

  * `INSERT ... ON CONFLICT (symbol) DO NOTHING`  -> `insertIfAbsent`
  * `SELECT likes, ips ... WHERE symbol = $1`     -> `findRow`
  * `UPDATE ... SET likes = likes + 1, ips = array_append(ips, $2)
     WHERE symbol = $1`                           -> `updateRow`

The async functions `ensureRow`, `likeStockIfNeeded`, `getLikes` and the
`GET /api/stock-prices` handler are embedded as state-passing functions
over this table.  A JavaScript runtime error (reading `.ips` of
`undefined` when a SELECT returns no row) is modelled by returning
`none`.
-/

namespace StockChecker

/-- One row of the `stock_likes` table: the like counter and the array of
IPs that have already liked the symbol (in insertion order, since
`array_append` appends at the end). -/
structure TickerRecord where
  likes : Nat
  ips : List String
  deriving DecidableEq, Repr

/-- The `stock_likes` table: rows keyed by symbol. `INSERT` appends at the
end; the `PRIMARY KEY` constraint is reflected by `insertIfAbsent` never
inserting a duplicate key. -/
abbrev Store := List (String × TickerRecord)

/-- `SELECT likes, ips FROM stock_likes WHERE symbol = s` — the row for
symbol `s`, if any. -/
def findRow (st : Store) (s : String) : Option TickerRecord :=
  (st.find? (fun p => p.1 == s)).map (fun p => p.2)

/-- `INSERT INTO stock_likes (symbol, likes, ips) VALUES (s, 0, '\x7b\x7d')
ON CONFLICT (symbol) DO NOTHING`. -/
def insertIfAbsent (st : Store) (s : String) : Store :=
  match findRow st s with
  | some _ => st
  | none => st ++ [(s, ⟨0, []⟩)]

/-- `UPDATE stock_likes SET likes = likes + 1, ips = array_append(ips, ip)
WHERE symbol = s`. -/
def updateRow (st : Store) (s : String) (ip : String) : Store :=
  st.map (fun p => if p.1 == s then (p.1, ⟨p.2.likes + 1, p.2.ips ++ [ip]⟩) else p)

/-- The likes counter visible for a symbol (`rows[0]?.likes ?? 0`). -/
def getLikeCount (st : Store) (s : String) : Nat :=
  ((findRow st s).map (fun r => r.likes)).getD 0

/-- The seen-IPs set visible for a symbol (empty when the row is missing). -/
def seenIps (st : Store) (s : String) : List String :=
  ((findRow st s).map (fun r => r.ips)).getD []

/-- `ensureRow(symbol)` of part_000 (the same INSERT is inlined at the top
of `likeStockIfNeeded` in server.js). -/
def ensureRow (symbol : String) (st : Store) : Store :=
  insertIfAbsent st symbol

/-- `likeStockIfNeeded(symbol, ip, likeFlag)`: ensure the row, return at
once if no like was requested, otherwise SELECT the row and, when the IP
is not already recorded, run the incrementing UPDATE.  `none` models the
JavaScript TypeError thrown by `row.ips` when the SELECT returns no rows
(unreachable after the ensure, as proved below). -/
def likeStockIfNeeded (symbol ip : String) (likeFlag : Bool) (st : Store) : Option Store :=
  let st1 := ensureRow symbol st
  if likeFlag = false then some st1
  else
    match findRow st1 symbol with
    | none => none
    | some row =>
      if row.ips.contains ip then some st1
      else some (updateRow st1 symbol ip)

/-- `getLikes(symbol)` of part_000: ensure the row, then SELECT and return
`rows[0]?.likes ?? 0`, together with the store it leaves behind. -/
def getLikes (symbol : String) (st : Store) : Nat × Store :=
  let st1 := ensureRow symbol st
  (getLikeCount st1 symbol, st1)

namespace ServerJs

/-- `getLikes(symbol)` of server.js: a bare SELECT, `rows[0]?.likes ?? 0`,
with no ensure — the store is returned untouched. -/
def getLikes (symbol : String) (st : Store) : Nat × Store :=
  (getLikeCount st symbol, st)

end ServerJs

/-- Well-formedness of the table: the primary-key constraint (no duplicate
symbols) together with the spec invariant on every row — the counter
equals the number of recorded IPs and no IP is recorded twice. -/
def WF (st : Store) : Prop :=
  (st.map Prod.fst).Nodup ∧ ∀ p ∈ st, p.2.likes = p.2.ips.length ∧ p.2.ips.Nodup

/-- The operations the service runs against the store. -/
inductive Op
  | ensure (symbol : String)
  | like (symbol ip : String) (likeFlag : Bool)
  | read (symbol : String)
  deriving DecidableEq, Repr

/-- Effect of one operation on the table.  For `like` the `getD st`
branch covers the modelled JavaScript TypeError, proved unreachable in
`likeStockIfNeeded_isSome`. -/
def applyOp : Op → Store → Store
  | .ensure s, st => ensureRow s st
  | .like s ip f, st => (likeStockIfNeeded s ip f st).getD st
  | .read s, st => (getLikes s st).2

/-- Run a sequence of operations from a starting table. -/
def runOps (ops : List Op) (st : Store) : Store :=
  ops.foldl (fun st op => applyOp op st) st

/-- `n` sequential `likeStockIfNeeded(symbol, ip, true)` calls, chained
through the possible-error monad. -/
def likeIter (symbol ip : String) : Nat → Store → Option Store
  | 0, st => some st
  | n + 1, st => (likeStockIfNeeded symbol ip true st).bind (likeIter symbol ip n)

/-! ### Interleaved execution of concurrent `likeStockIfNeeded` calls

Each `pool.query` of the source is one atomic statement executed by the
database; between two statements of one call, statements of concurrent
calls may run.  The membership test `row.ips.includes(ip)` is local
JavaScript computation on the snapshot returned by the SELECT, so it is
folded into the same step as the conditional UPDATE. -/

/-- Program counter of one in-flight `likeStockIfNeeded(symbol, ip, true)`
call: before the ensuring INSERT, before the SELECT, before the
conditional UPDATE (holding the SELECTed snapshot), done, or crashed
(SELECT returned no rows). -/
inductive CallPC
  | atEnsure
  | atSelect
  | atUpdate (row : TickerRecord)
  | finished
  | crashed
  deriving DecidableEq, Repr

/-- One in-flight like call. -/
structure LikeCall where
  symbol : String
  ip : String
  pc : CallPC
  deriving DecidableEq, Repr

/-- One atomic database statement of a like call. -/
def stepCall (c : LikeCall) (st : Store) : LikeCall × Store :=
  match c.pc with
  | .atEnsure => ({ c with pc := .atSelect }, insertIfAbsent st c.symbol)
  | .atSelect =>
    match findRow st c.symbol with
    | some row => ({ c with pc := .atUpdate row }, st)
    | none => ({ c with pc := .crashed }, st)
  | .atUpdate row =>
    if row.ips.contains c.ip then ({ c with pc := .finished }, st)
    else ({ c with pc := .finished }, updateRow st c.symbol c.ip)
  | .finished => (c, st)
  | .crashed => (c, st)

/-- Let call number `i` execute its next atomic statement. -/
def stepSystem (cs : List LikeCall) (st : Store) (i : Nat) : List LikeCall × Store :=
  match cs.get? i with
  | none => (cs, st)
  | some c =>
    let p := stepCall c st
    (cs.set i p.1, p.2)

/-- Run the concurrent calls under a given interleaving: the schedule
lists, in order, which call executes its next atomic statement. -/
def runSchedule (sched : List Nat) (cs : List LikeCall) (st : Store) :
    List LikeCall × Store :=
  sched.foldl (fun p i => stepSystem p.1 p.2 i) (cs, st)

/-! ### The GET /api/stock-prices request handler -/

/-- JavaScript stringification of the `like` query parameter:
`String(undefined)` is the string `"undefined"`.  The parameter is
modelled as absent or a single string. -/
def jsString : Option String → String
  | none => "undefined"
  | some s => s

/-- JavaScript `s.toUpperCase()`, embedded character-wise (this agrees
with JavaScript on the ASCII symbols and IPs at play). -/
def jsToUpperCase (s : String) : String :=
  ⟨s.data.map Char.toUpper⟩

/-- JavaScript `s.toLowerCase()`, embedded character-wise. -/
def jsToLowerCase (s : String) : String :=
  ⟨s.data.map Char.toLower⟩

/-- The `stock` query parameter as Express delivers it: absent, a single
string, or an array of strings. -/
inductive StockParam
  | absent
  | one (s : String)
  | many (l : List String)
  deriving DecidableEq, Repr

/-- JavaScript truthiness test of `!stock`: `undefined` and the empty
string are falsy; an array is always truthy. -/
def stockFalsy : StockParam → Bool
  | .absent => true
  | .one s => s == ""
  | .many _ => false

/-- `getStockPrice(symbol)` of part_000: the deterministic stub
`\x7b stock: jsToUpperCase symbolCase(), price: 100 \x7d`. -/
def getStockPrice (symbol : String) : String × Nat :=
  (jsToUpperCase symbol, 100)

/-- The JSON responses the handler can produce. `badRequest` is
`res.status(400).json(\x7b error: 'stock query param required' \x7d)`. -/
inductive Resp
  | badRequest
  | single (stock : String) (price : Nat) (likes : Nat)
  | double (stockA : String) (priceA : Nat) (relA : Int)
           (stockB : String) (priceB : Nat) (relB : Int)
  deriving DecidableEq, Repr

/-- The `GET /api/stock-prices` handler of part_000 (server.js agrees on
everything the claims touch except its `getLikes`, embedded separately,
and the missing `slice(0, 2)`, which only matters for three or more
symbols).  `ip` stands for the value of `getClientIP(req)`.  The
source's `Promise.all` pairs are embedded in program order.  `none`
models an uncaught JavaScript error (the 500 path). -/
def stockPricesHandler (stock : StockParam) (like : Option String) (ip : String)
    (st : Store) : Option (Resp × Store) :=
  let likeFlag := jsToLowerCase (jsString like) == "true"
  if stockFalsy stock then some (.badRequest, st)
  else
    let stocks : List String :=
      match stock with
      | .absent => []
      | .one s => [s]
      | .many l => l.take 2
    if stocks.length == 1 then
      let sym := jsToUpperCase (stocks.headD "")
      match likeStockIfNeeded sym ip likeFlag st with
      | none => none
      | some st1 =>
        let p := getStockPrice sym
        let r := getLikes sym st1
        some (.single p.1 p.2 r.1, r.2)
    else
      let symA := jsToUpperCase ((stocks.get? 0).getD "undefined")
      let symB := jsToUpperCase ((stocks.get? 1).getD "undefined")
      match likeStockIfNeeded symA ip likeFlag st with
      | none => none
      | some st1 =>
        match likeStockIfNeeded symB ip likeFlag st1 with
        | none => none
        | some st2 =>
          let pA := getStockPrice symA
          let pB := getStockPrice symB
          let rA := getLikes symA st2
          let rB := getLikes symB rA.2
          some (.double pA.1 pA.2 ((rA.1 : Int) - (rB.1 : Int))
                        pB.1 pB.2 ((rB.1 : Int) - (rA.1 : Int)), rB.2)

/-! ### Basic lemmas about the three atomic queries -/

@[simp]
theorem findRow_nil (s : String) : findRow [] s = none := rfl

theorem findRow_singleton (s : String) (r : TickerRecord) : findRow [(s, r)] s = some r := by
  simp [findRow, List.find?]

theorem findRow_singleton_ne (s t : String) (r : TickerRecord) (h : t ≠ s) :
    findRow [(s, r)] t = none := by
  have hb : (s == t) = false := by
    simp only [beq_eq_false_iff_ne, ne_eq]
    exact fun hh => h hh.symm
  simp [findRow, List.find?, hb]

theorem findRow_append (st st' : Store) (s : String) :
    findRow (st ++ st') s = (findRow st s).orElse (fun _ => findRow st' s) := by
  induction st with
  | nil => simp [findRow, Option.orElse]
  | cons p tl ih =>
    by_cases h : p.1 = s
    · simp [findRow, List.find?, h, Option.orElse]
    · have hb : (p.1 == s) = false := by simp [h]
      simpa [findRow, List.find?, hb] using ih

theorem findRow_insertIfAbsent_self (st : Store) (s : String) :
    findRow (insertIfAbsent st s) s = some ((findRow st s).getD ⟨0, []⟩) := by
  unfold insertIfAbsent
  cases h : findRow st s with
  | some r => simp [h]
  | none => simp [findRow_append, h, Option.orElse, findRow_singleton]

theorem insertIfAbsent_of_some (st : Store) (s : String) (r : TickerRecord)
    (h : findRow st s = some r) : insertIfAbsent st s = st := by
  unfold insertIfAbsent
  rw [h]

theorem findRow_insertIfAbsent_preserves (st : Store) (s t : String) (r : TickerRecord)
    (h : findRow st t = some r) : findRow (insertIfAbsent st s) t = some r := by
  unfold insertIfAbsent
  cases hs : findRow st s with
  | some _ => exact h
  | none => simp [findRow_append, h, Option.orElse]

theorem getLikeCount_insertIfAbsent (st : Store) (s t : String) :
    getLikeCount (insertIfAbsent st s) t = getLikeCount st t := by
  unfold insertIfAbsent
  cases hs : findRow st s with
  | some _ => rfl
  | none =>
    unfold getLikeCount
    rw [findRow_append]
    cases ht : findRow st t with
    | some r => simp [ht, Option.orElse]
    | none =>
      by_cases hts : t = s
      · subst hts
        simp [ht, Option.orElse, findRow_singleton, hs]
      · simp [ht, Option.orElse, findRow_singleton_ne s t _ hts]

theorem findRow_updateRow_self (st : Store) (s ip : String) (r : TickerRecord)
    (h : findRow st s = some r) :
    findRow (updateRow st s ip) s = some ⟨r.likes + 1, r.ips ++ [ip]⟩ := by
  induction st with
  | nil => simp [findRow] at h
  | cons p tl ih =>
    cases hb : (p.1 == s) with
    | true =>
      simp [findRow, List.find?, hb] at h
      subst h
      simp [findRow, updateRow, List.find?, hb]
    | false =>
      simp only [findRow, List.find?, hb] at h
      have := ih h
      simpa [findRow, updateRow, List.find?, hb] using this

theorem findRow_updateRow_ne (st : Store) (s t ip : String) (h : t ≠ s) :
    findRow (updateRow st s ip) t = findRow st t := by
  induction st with
  | nil => simp [updateRow]
  | cons p tl ih =>
    cases hb : (p.1 == s) with
    | true =>
      have hp : p.1 = s := by simpa using hb
      have hbt : (p.1 == t) = false := by
        simp only [beq_eq_false_iff_ne, ne_eq, hp]
        exact fun hh => h hh.symm
      simp [findRow, updateRow, List.find?, hb, hbt] at ih ⊢
      simpa [findRow] using ih
    | false =>
      simp [findRow, updateRow, List.find?, hb] at ih ⊢
      cases hbt : (p.1 == t) with
      | true => simp
      | false => simpa [findRow] using ih

theorem updateRow_of_none (st : Store) (s ip : String) (h : findRow st s = none) :
    updateRow st s ip = st := by
  induction st with
  | nil => simp [updateRow]
  | cons p tl ih =>
    cases hb : (p.1 == s) with
    | true => simp [findRow, List.find?, hb] at h
    | false =>
      simp only [findRow, List.find?, hb] at h
      have htl := ih h
      simp only [updateRow, List.map_cons] at htl ⊢
      rw [hb]
      simpa using htl

/-! ### Characterization of `likeStockIfNeeded` -/

theorem likeStockIfNeeded_no_flag (symbol ip : String) (st : Store) :
    likeStockIfNeeded symbol ip false st = some (ensureRow symbol st) := rfl

theorem seenIps_eq_of_findRow (st : Store) (s : String) (r : TickerRecord)
    (h : findRow st s = some r) : seenIps st s = r.ips := by
  simp [seenIps, h]

theorem likeStockIfNeeded_seen (symbol ip : String) (st : Store)
    (h : ip ∈ seenIps st symbol) :
    likeStockIfNeeded symbol ip true st = some st := by
  cases hr : findRow st symbol with
  | none => simp [seenIps, hr] at h
  | some row =>
    have h1 : ensureRow symbol st = st := insertIfAbsent_of_some st symbol row hr
    have hmem : ip ∈ row.ips := by
      rwa [seenIps_eq_of_findRow st symbol row hr] at h
    simp [likeStockIfNeeded, h1, hr, hmem]

theorem likeStockIfNeeded_fresh (symbol ip : String) (st : Store)
    (h : ip ∉ seenIps st symbol) :
    likeStockIfNeeded symbol ip true st
      = some (updateRow (ensureRow symbol st) symbol ip) := by
  have h1 : findRow (ensureRow symbol st) symbol
      = some ((findRow st symbol).getD ⟨0, []⟩) := findRow_insertIfAbsent_self st symbol
  have hips : ((findRow st symbol).getD (⟨0, []⟩ : TickerRecord)).ips = seenIps st symbol := by
    cases hr : findRow st symbol with
    | none => simp [seenIps, hr]
    | some r => simp [seenIps, hr]
  have h2 : ((findRow st symbol).getD (⟨0, []⟩ : TickerRecord)).ips.contains ip = false := by
    rw [hips]
    simpa using h
  simp [likeStockIfNeeded, ensureRow] at h1 h2 ⊢
  simp [h1, h2]

theorem getLikeCount_after_fresh_like (symbol ip : String) (st : Store) :
    getLikeCount (updateRow (ensureRow symbol st) symbol ip) symbol
      = getLikeCount st symbol + 1 := by
  have h1 : findRow (ensureRow symbol st) symbol
      = some ((findRow st symbol).getD ⟨0, []⟩) := findRow_insertIfAbsent_self st symbol
  have h2 := findRow_updateRow_self (ensureRow symbol st) symbol ip _ h1
  unfold getLikeCount
  rw [h2]
  cases hr : findRow st symbol with
  | none => simp [hr]
  | some r => simp [hr]

theorem seenIps_after_fresh_like (symbol ip : String) (st : Store) :
    seenIps (updateRow (ensureRow symbol st) symbol ip) symbol
      = seenIps st symbol ++ [ip] := by
  have h1 : findRow (ensureRow symbol st) symbol
      = some ((findRow st symbol).getD ⟨0, []⟩) := findRow_insertIfAbsent_self st symbol
  have h2 := findRow_updateRow_self (ensureRow symbol st) symbol ip _ h1
  unfold seenIps
  rw [h2]
  cases hr : findRow st symbol with
  | none => simp [seenIps, hr]
  | some r => simp [seenIps, hr]

theorem findRow_ensureRow (st : Store) (s : String) :
    findRow (ensureRow s st) s = some ⟨getLikeCount st s, seenIps st s⟩ := by
  rw [ensureRow, findRow_insertIfAbsent_self]
  cases hr : findRow st s with
  | none => simp [getLikeCount, seenIps, hr]
  | some r => simp [getLikeCount, seenIps, hr]

theorem likeStockIfNeeded_isSome (symbol ip : String) (likeFlag : Bool) (st : Store) :
    ∃ st', likeStockIfNeeded symbol ip likeFlag st = some st' := by
  cases likeFlag with
  | false => exact ⟨_, likeStockIfNeeded_no_flag symbol ip st⟩
  | true =>
    by_cases h : ip ∈ seenIps st symbol
    · exact ⟨_, likeStockIfNeeded_seen symbol ip st h⟩
    · exact ⟨_, likeStockIfNeeded_fresh symbol ip st h⟩

/-! ### The data-model invariant: `likes` counts the distinct recorded IPs -/

theorem WF_nil : WF [] := by simp [WF]

theorem findRow_eq_of_mem (st : Store) (s : String)
    (hk : (st.map Prod.fst).Nodup) (p : String × TickerRecord)
    (hp : p ∈ st) (hs : p.1 = s) : findRow st s = some p.2 := by
  induction st with
  | nil => simp at hp
  | cons q tl ih =>
    simp only [List.map_cons, List.nodup_cons] at hk
    rcases List.mem_cons.mp hp with h | h
    · subst h
      simp [findRow, List.find?, hs]
    · have hq : (q.1 == s) = false := by
        simp only [beq_eq_false_iff_ne, ne_eq]
        intro hqs
        apply hk.1
        have hm : p.1 ∈ tl.map Prod.fst := List.mem_map_of_mem Prod.fst h
        rwa [hs, ← hqs] at hm
      simp only [findRow, List.find?, hq]
      exact ih hk.2 h

theorem keys_updateRow (st : Store) (s ip : String) :
    (updateRow st s ip).map Prod.fst = st.map Prod.fst := by
  unfold updateRow
  rw [List.map_map]
  apply List.map_congr_left
  intro p _
  cases hb : (p.1 == s) with
  | true => simp [Function.comp, hb]
  | false => simp [Function.comp, hb]

theorem WF_updateRow (st : Store) (s ip : String) (r : TickerRecord)
    (hwf : WF st) (hr : findRow st s = some r) (hip : ip ∉ r.ips) :
    WF (updateRow st s ip) := by
  refine ⟨by rw [keys_updateRow]; exact hwf.1, ?_⟩
  intro q hq
  simp only [updateRow] at hq
  rcases List.mem_map.mp hq with ⟨p, hp, hfp⟩
  have hinv := hwf.2 p hp
  by_cases hps : p.1 = s
  · have hfind := findRow_eq_of_mem st s hwf.1 p hp hps
    rw [hr] at hfind
    have hpr : r = p.2 := by injection hfind
    subst hpr
    have hb : (p.1 == s) = true := by simpa using hps
    rw [← hfp, hb]
    refine ⟨?_, ?_⟩
    · simp [hinv.1]
    · simp [List.nodup_append, hinv.2, hip]
  · have hb : (p.1 == s) = false := by simpa using hps
    rw [← hfp, hb]
    simpa using hinv

theorem WF_insertIfAbsent (st : Store) (s : String) (hwf : WF st) :
    WF (insertIfAbsent st s) := by
  unfold insertIfAbsent
  cases hr : findRow st s with
  | some _ => exact hwf
  | none =>
    constructor
    · simp only [List.map_append, List.map_cons, List.map_nil]
      rw [List.nodup_append]
      refine ⟨hwf.1, List.nodup_singleton s, ?_⟩
      intro a ha hb
      simp only [List.mem_singleton] at hb
      subst hb
      rcases List.mem_map.mp ha with ⟨p, hp, hfp⟩
      have hfind := findRow_eq_of_mem st a ?_ p hp hfp
      · rw [hr] at hfind
        exact Option.noConfusion hfind
      · exact hwf.1
    · intro p hp
      rcases List.mem_append.mp hp with h | h
      · exact hwf.2 p h
      · simp only [List.mem_singleton] at h
        subst h
        exact ⟨rfl, List.nodup_nil⟩

theorem WF_likeStockIfNeeded (symbol ip : String) (likeFlag : Bool) (st st' : Store)
    (hwf : WF st) (h : likeStockIfNeeded symbol ip likeFlag st = some st') : WF st' := by
  cases likeFlag with
  | false =>
    rw [likeStockIfNeeded_no_flag] at h
    injection h with h
    subst h
    exact WF_insertIfAbsent st symbol hwf
  | true =>
    by_cases hmem : ip ∈ seenIps st symbol
    · rw [likeStockIfNeeded_seen symbol ip st hmem] at h
      injection h with h
      subst h
      exact hwf
    · rw [likeStockIfNeeded_fresh symbol ip st hmem] at h
      injection h with h
      subst h
      exact WF_updateRow _ symbol ip _ (WF_insertIfAbsent st symbol hwf)
        (findRow_ensureRow st symbol) hmem

theorem WF_applyOp (op : Op) (st : Store) (hwf : WF st) : WF (applyOp op st) := by
  cases op with
  | ensure s => exact WF_insertIfAbsent st s hwf
  | like s ip f =>
    rcases likeStockIfNeeded_isSome s ip f st with ⟨st', h⟩
    simp only [applyOp, h, Option.getD_some]
    exact WF_likeStockIfNeeded s ip f st st' hwf h
  | read s => exact WF_insertIfAbsent st s hwf

theorem WF_runOps (ops : List Op) (st : Store) (hwf : WF st) : WF (runOps ops st) := by
  induction ops generalizing st with
  | nil => exact hwf
  | cons op tl ih => exact ih (applyOp op st) (WF_applyOp op st hwf)

/-! ### Sequential repetition of the same like -/

theorem likeIter_of_seen (symbol ip : String) (n : Nat) (st : Store)
    (h : ip ∈ seenIps st symbol) : likeIter symbol ip n st = some st := by
  induction n with
  | zero => rfl
  | succ k ih => simp [likeIter, likeStockIfNeeded_seen symbol ip st h, ih]

/-! ### Handler path lemmas -/

theorem getLikeCount_ensureRow (st : Store) (s t : String) :
    getLikeCount (ensureRow s st) t = getLikeCount st t :=
  getLikeCount_insertIfAbsent st s t

/-- Behaviour of the single-symbol path: the handler uppercases the
symbol, optionally records the like (when the lowercased stringified
`like` parameter equals `"true"` and the IP is new), and reports the
count stored under the uppercased symbol. -/
theorem stockPricesHandler_one (s : String) (like : Option String) (ip : String) (st : Store)
    (hs : s ≠ "")
    (hfresh : (jsToLowerCase (jsString like) == "true") = true → ip ∉ seenIps st (jsToUpperCase s)) :
    ∃ st', stockPricesHandler (.one s) like ip st
        = some (.single (jsToUpperCase (jsToUpperCase s)) 100 (getLikeCount st' (jsToUpperCase s)), st')
      ∧ getLikeCount st' (jsToUpperCase s)
          = getLikeCount st (jsToUpperCase s)
            + (if jsToLowerCase (jsString like) == "true" then 1 else 0) := by
  have hsf : stockFalsy (.one s) = false := by
    simp [stockFalsy, hs]
  cases hflag : jsToLowerCase (jsString like) == "true" with
  | true =>
    have hlike := likeStockIfNeeded_fresh (jsToUpperCase s) ip st (hfresh hflag)
    refine ⟨ensureRow (jsToUpperCase s) (updateRow (ensureRow (jsToUpperCase s) st) (jsToUpperCase s) ip), ?_, ?_⟩
    · simp [stockPricesHandler, hsf, hflag, hlike, getLikes, getStockPrice]
    · rw [getLikeCount_ensureRow, getLikeCount_after_fresh_like]
      simp
  | false =>
    have hlike := likeStockIfNeeded_no_flag (jsToUpperCase s) ip st
    refine ⟨ensureRow (jsToUpperCase s) (ensureRow (jsToUpperCase s) st), ?_, ?_⟩
    · simp [stockPricesHandler, hsf, hflag, hlike, getLikes, getStockPrice]
    · rw [getLikeCount_ensureRow, getLikeCount_ensureRow]
      simp

/-- Behaviour of the two-symbol path: both symbols are uppercased, the
like decision is applied to each, and the two `rel_likes` fields are the
two opposite differences of the final stored counts. -/
theorem stockPricesHandler_two (a b : String) (like : Option String) (ip : String) (st : Store) :
    ∃ stF, stockPricesHandler (.many [a, b]) like ip st
        = some (.double (jsToUpperCase (jsToUpperCase a)) 100
                  ((getLikeCount stF (jsToUpperCase a) : Int) - (getLikeCount stF (jsToUpperCase b) : Int))
                (jsToUpperCase (jsToUpperCase b)) 100
                  ((getLikeCount stF (jsToUpperCase b) : Int) - (getLikeCount stF (jsToUpperCase a) : Int)),
                stF) := by
  obtain ⟨st1, h1⟩ :=
    likeStockIfNeeded_isSome (jsToUpperCase a) ip (jsToLowerCase (jsString like) == "true") st
  obtain ⟨st2, h2⟩ :=
    likeStockIfNeeded_isSome (jsToUpperCase b) ip (jsToLowerCase (jsString like) == "true") st1
  refine ⟨ensureRow (jsToUpperCase b) (ensureRow (jsToUpperCase a) st2), ?_⟩
  simp [stockPricesHandler, stockFalsy, h1, h2, getLikes, getStockPrice,
    getLikeCount_ensureRow]

/-! ### Claim theorems -/

/-- C1: two concurrent `likeStockIfNeeded(S, I, true)` calls for the same
new IP, interleaved so that both SELECT before either UPDATE, drive the
likes counter of S to 2 and record the IP twice — not the single net
increment the claim demands.  Both calls complete normally under this
schedule (neither crashes), so this is reachable behaviour of the
source's non-atomic read-then-write sequence. -/
theorem concurrent_sameIP_double_increment :
    getLikeCount (runSchedule [0, 1, 0, 1, 0, 1]
      [⟨"GOOG", "1.2.3.4", .atEnsure⟩, ⟨"GOOG", "1.2.3.4", .atEnsure⟩] []).2 "GOOG" = 2
    ∧ seenIps (runSchedule [0, 1, 0, 1, 0, 1]
      [⟨"GOOG", "1.2.3.4", .atEnsure⟩, ⟨"GOOG", "1.2.3.4", .atEnsure⟩] []).2 "GOOG"
        = ["1.2.3.4", "1.2.3.4"]
    ∧ (runSchedule [0, 1, 0, 1, 0, 1]
      [⟨"GOOG", "1.2.3.4", .atEnsure⟩, ⟨"GOOG", "1.2.3.4", .atEnsure⟩] []).1
        = [⟨"GOOG", "1.2.3.4", .finished⟩, ⟨"GOOG", "1.2.3.4", .finished⟩] := by
  decide

/-- C2: after any sequence of `ensureRow`, `likeStockIfNeeded`, `getLikes`
operations from an empty store, the stored likes counter of every symbol
equals the number of IPs in its seen-IPs set, and no IP appears twice in
that set (so the counter is exactly the number of distinct IPs). -/
theorem likes_counts_distinct_ips (ops : List Op) (s : String) :
    getLikeCount (runOps ops []) s = (seenIps (runOps ops []) s).length
      ∧ (seenIps (runOps ops []) s).Nodup := by
  have hwf := WF_runOps ops [] WF_nil
  cases hr : findRow (runOps ops []) s with
  | none => simp [getLikeCount, seenIps, hr]
  | some r =>
    have hq : ∃ q ∈ runOps ops [], q.2 = r := by
      unfold findRow at hr
      cases hf : List.find? (fun p => p.1 == s) (runOps ops []) with
      | none => simp [hf] at hr
      | some q =>
        refine ⟨q, List.mem_of_find?_eq_some hf, ?_⟩
        rw [hf] at hr
        simpa using hr
    obtain ⟨q, hqmem, hq2⟩ := hq
    have hinv := hwf.2 q hqmem
    rw [hq2] at hinv
    simpa [getLikeCount, seenIps, hr] using hinv

/-- C3: from a state where IP `ip` is not yet recorded for `symbol`,
`n ≥ 1` sequential `likeStockIfNeeded(symbol, ip, true)` calls raise the
count by exactly 1 (not `n`), and the state reached after the first call
is a fixed point of further identical calls. -/
theorem repeated_likes_increment_once (symbol ip : String) (st : Store) (n : Nat)
    (h1 : ip ∉ seenIps st symbol) (h2 : 1 ≤ n) :
    ∃ st1, likeIter symbol ip n st = some st1
      ∧ getLikeCount st1 symbol = getLikeCount st symbol + 1
      ∧ likeStockIfNeeded symbol ip true st1 = some st1 := by
  obtain ⟨k, rfl⟩ : ∃ k, n = k + 1 := ⟨n - 1, by omega⟩
  have hfirst := likeStockIfNeeded_fresh symbol ip st h1
  have hseen : ip ∈ seenIps (updateRow (ensureRow symbol st) symbol ip) symbol := by
    rw [seenIps_after_fresh_like]
    simp
  refine ⟨updateRow (ensureRow symbol st) symbol ip, ?_, ?_,
    likeStockIfNeeded_seen symbol ip _ hseen⟩
  · simp [likeIter, hfirst, likeIter_of_seen symbol ip k _ hseen]
  · exact getLikeCount_after_fresh_like symbol ip st

theorem repeated_likes_increment_once_witness :
    ∃ st1, likeIter "GOOG" "1.2.3.4" 3 [] = some st1
      ∧ getLikeCount st1 "GOOG" = getLikeCount ([] : Store) "GOOG" + 1
      ∧ likeStockIfNeeded "GOOG" "1.2.3.4" true st1 = some st1 :=
  repeated_likes_increment_once "GOOG" "1.2.3.4" [] 3 (by simp [seenIps]) (by omega)

/-- C4 counterexample: server.js's `getLikes` does not auto-create the
record — on an empty store it returns 0 and leaves the store without a
row for the symbol, against the claim that a record exists afterwards. -/
theorem serverjs_getLikes_no_autocreate :
    ServerJs.getLikes "GOOG" [] = (0, [])
      ∧ findRow (ServerJs.getLikes "GOOG" []).2 "GOOG" = none :=
  ⟨rfl, rfl⟩

/-- C4 (amended): part_000's `getLikes` auto-creates on read — for a
missing record it appends a fresh row, afterwards the record exists with
zero likes and empty seen-IPs, and it returns 0; server.js's `getLikes`
also returns 0 rather than an error but leaves the store unchanged. -/
theorem getLikes_missing_record (s : String) (st : Store) (h : findRow st s = none) :
    getLikes s st = (0, st ++ [(s, ⟨0, []⟩)])
      ∧ findRow (getLikes s st).2 s = some ⟨0, []⟩
      ∧ ServerJs.getLikes s st = (0, st) := by
  have hc : getLikeCount st s = 0 := by simp [getLikeCount, h]
  have hens : ensureRow s st = st ++ [(s, ⟨0, []⟩)] := by
    unfold ensureRow insertIfAbsent
    rw [h]
  refine ⟨?_, ?_, ?_⟩
  · show (getLikeCount (ensureRow s st) s, ensureRow s st) = (0, st ++ [(s, ⟨0, []⟩)])
    rw [getLikeCount_ensureRow, hc, hens]
  · show findRow (ensureRow s st) s = some ⟨0, []⟩
    rw [findRow_ensureRow, hc]
    simp [seenIps, h]
  · show (getLikeCount st s, st) = (0, st)
    rw [hc]

theorem getLikes_missing_record_witness :
    getLikes "GOOG" [] = (0, [] ++ [("GOOG", ⟨0, []⟩)])
      ∧ findRow (getLikes "GOOG" []).2 "GOOG" = some ⟨0, []⟩
      ∧ ServerJs.getLikes "GOOG" [] = (0, []) :=
  getLikes_missing_record "GOOG" [] rfl

/-- C5: a call with `likeFlag = false` succeeds, guarantees the row for
the symbol exists afterwards, preserves every pre-existing record
byte-for-byte, and gives a brand-new symbol the zero record. -/
theorem noLike_ensures_row_only (symbol ip : String) (st : Store) :
    ∃ st', likeStockIfNeeded symbol ip false st = some st'
      ∧ (findRow st' symbol).isSome = true
      ∧ (∀ t r, findRow st t = some r → findRow st' t = some r)
      ∧ (findRow st symbol = none → findRow st' symbol = some ⟨0, []⟩) := by
  refine ⟨ensureRow symbol st, likeStockIfNeeded_no_flag symbol ip st, ?_, ?_, ?_⟩
  · rw [findRow_ensureRow]
    rfl
  · intro t r h
    exact findRow_insertIfAbsent_preserves st symbol t r h
  · intro h
    rw [findRow_ensureRow]
    simp [getLikeCount, seenIps, h]

theorem noLike_ensures_row_only_witness :
    ∃ st', likeStockIfNeeded "GOOG" "1.2.3.4" false [] = some st'
      ∧ (findRow st' "GOOG").isSome = true
      ∧ (∀ t r, findRow ([] : Store) t = some r → findRow st' t = some r)
      ∧ (findRow ([] : Store) "GOOG" = none → findRow st' "GOOG" = some ⟨0, []⟩) :=
  noLike_ensures_row_only "GOOG" "1.2.3.4" []

/-- C6: `ensureRow` is idempotent — it is an exact no-op when the record
already exists (never resetting it), creates the zero record when
missing, preserves every other record, and applying it twice equals
applying it once. -/
theorem ensureRow_idempotent_spec (s : String) (st : Store) :
    (∀ r, findRow st s = some r → ensureRow s st = st)
      ∧ (findRow st s = none →
          ensureRow s st = st ++ [(s, ⟨0, []⟩)]
            ∧ findRow (ensureRow s st) s = some ⟨0, []⟩)
      ∧ (∀ t r, findRow st t = some r → findRow (ensureRow s st) t = some r)
      ∧ ensureRow s (ensureRow s st) = ensureRow s st := by
  refine ⟨?_, ?_, ?_, ?_⟩
  · intro r h
    exact insertIfAbsent_of_some st s r h
  · intro h
    constructor
    · unfold ensureRow insertIfAbsent
      rw [h]
    · rw [findRow_ensureRow]
      simp [getLikeCount, seenIps, h]
  · intro t r h
    exact findRow_insertIfAbsent_preserves st s t r h
  · exact insertIfAbsent_of_some _ s _ (findRow_ensureRow st s)

theorem ensureRow_idempotent_spec_witness :
    (∀ r, findRow ([] : Store) "GOOG" = some r → ensureRow "GOOG" [] = [])
      ∧ (findRow ([] : Store) "GOOG" = none →
          ensureRow "GOOG" [] = [] ++ [("GOOG", ⟨0, []⟩)]
            ∧ findRow (ensureRow "GOOG" []) "GOOG" = some ⟨0, []⟩)
      ∧ (∀ t r, findRow ([] : Store) t = some r → findRow (ensureRow "GOOG" []) t = some r)
      ∧ ensureRow "GOOG" (ensureRow "GOOG" []) = ensureRow "GOOG" [] :=
  ensureRow_idempotent_spec "GOOG" []

/-- C7: every two-symbol request answers with `rel_likes` computed as
`likes(A) - likes(B)` and `likes(B) - likes(A)` over the stored counts,
so the first entry is always the negation of the second; with stored
counts 5 and 2 the response carries +3 and -3. -/
theorem twoStock_relLikes_antisymmetric :
    (∀ (a b : String) (like : Option String) (ip : String) (st : Store),
      ∃ sa sb stF,
        stockPricesHandler (.many [a, b]) like ip st
          = some (.double sa 100
                    ((getLikeCount stF (jsToUpperCase a) : Int) - (getLikeCount stF (jsToUpperCase b) : Int))
                  sb 100
                    ((getLikeCount stF (jsToUpperCase b) : Int) - (getLikeCount stF (jsToUpperCase a) : Int)),
                  stF)
        ∧ (getLikeCount stF (jsToUpperCase b) : Int) - (getLikeCount stF (jsToUpperCase a) : Int)
            = -((getLikeCount stF (jsToUpperCase a) : Int) - (getLikeCount stF (jsToUpperCase b) : Int)))
    ∧ stockPricesHandler (.many ["A", "B"]) none "9.9.9.9"
        [("A", ⟨5, []⟩), ("B", ⟨2, []⟩)]
        = some (.double "A" 100 3 "B" 100 (-3), [("A", ⟨5, []⟩), ("B", ⟨2, []⟩)]) := by
  constructor
  · intro a b like ip st
    obtain ⟨stF, h⟩ := stockPricesHandler_two a b like ip st
    exact ⟨_, _, stF, h, by ring⟩
  · decide

/-- C8: a request with no `stock` query parameter is answered with the
400 validation error, and the store passes through untouched — the early
return happens before any store helper is invoked, for every store
content. -/
theorem missing_stock_param_rejected (like : Option String) (ip : String) (st : Store) :
    stockPricesHandler .absent like ip st = some (.badRequest, st) := rfl

/-- C9: liking via the lowercase symbol `goog` and then reading via the
uppercase symbol `GOOG` hit one shared record: the second request
reports the same incremented count that the first request stored,
because the handler uppercases the symbol before any store call. -/
theorem case_normalization_shared_record (ip ip2 : String) (st : Store)
    (hfresh : ip ∉ seenIps st "GOOG") :
    ∃ st1 st2,
      stockPricesHandler (.one "goog") (some "true") ip st
        = some (.single "GOOG" 100 (getLikeCount st "GOOG" + 1), st1)
      ∧ stockPricesHandler (.one "GOOG") none ip2 st1
        = some (.single "GOOG" 100 (getLikeCount st "GOOG" + 1), st2) := by
  have hup : (jsToUpperCase "goog") = "GOOG" := by decide
  have hup2 : (jsToUpperCase "GOOG") = "GOOG" := by decide
  have hflagT : (jsToLowerCase (jsString (some "true")) == "true") = true := by decide
  have hflagF : (jsToLowerCase (jsString none) == "true") = false := by decide
  obtain ⟨st1, h1, hc1⟩ := stockPricesHandler_one "goog" (some "true") ip st (by decide)
    (fun _ => by rw [hup]; exact hfresh)
  rw [hup, hup2] at h1
  rw [hup] at hc1
  simp only [hflagT, if_true] at hc1
  rw [hc1] at h1
  obtain ⟨st2, h2, hc2⟩ := stockPricesHandler_one "GOOG" none ip2 st1 (by decide)
    (fun hf => absurd hf (by simp [hflagF]))
  rw [hup2, hup2] at h2
  rw [hup2] at hc2
  simp only [hflagF, Bool.false_eq_true, if_false, Nat.add_zero] at hc2
  refine ⟨st1, st2, h1, ?_⟩
  rw [h2, hc2, hc1]

theorem case_normalization_shared_record_witness :
    ∃ st1 st2,
      stockPricesHandler (.one "goog") (some "true") "1.2.3.4" []
        = some (.single "GOOG" 100 (getLikeCount ([] : Store) "GOOG" + 1), st1)
      ∧ stockPricesHandler (.one "GOOG") none "5.6.7.8" st1
        = some (.single "GOOG" 100 (getLikeCount ([] : Store) "GOOG" + 1), st2) :=
  case_normalization_shared_record "1.2.3.4" "5.6.7.8" [] (by simp [seenIps])

/-- C10: on a single-stock request with a fresh IP the handler never
errors, and the stored count increments by 1 exactly when the `like`
parameter, stringified and lowercased, equals `"true"` — every other
value (absent, "1", "yes", ...) leaves the count unchanged. -/
theorem likeFlag_iff_lowercased_true (s : String) (like : Option String) (ip : String)
    (st : Store) (hs : s ≠ "") (hfresh : ip ∉ seenIps st (jsToUpperCase s)) :
    ∃ st', stockPricesHandler (.one s) like ip st
        = some (.single (jsToUpperCase (jsToUpperCase s)) 100 (getLikeCount st' (jsToUpperCase s)), st')
      ∧ getLikeCount st' (jsToUpperCase s)
          = getLikeCount st (jsToUpperCase s)
            + (if jsToLowerCase (jsString like) == "true" then 1 else 0) :=
  stockPricesHandler_one s like ip st hs (fun _ => hfresh)

theorem likeFlag_iff_lowercased_true_witness :
    ∃ st', stockPricesHandler (.one "goog") (some "TRUE") "1.2.3.4" []
        = some (.single (jsToUpperCase (jsToUpperCase "goog")) 100
            (getLikeCount st' (jsToUpperCase "goog")), st')
      ∧ getLikeCount st' (jsToUpperCase "goog")
          = getLikeCount ([] : Store) (jsToUpperCase "goog")
            + (if jsToLowerCase (jsString (some "TRUE")) == "true" then 1 else 0) :=
  likeFlag_iff_lowercased_true "goog" (some "TRUE") "1.2.3.4" [] (by decide) (by simp [seenIps])

end StockChecker
